import Mathlib

/-!
Verification of the GN build-graph resolution and Ninja manifest emission core.

This development shallowly embeds two bodies of code:

* the input-dependency phony emission of `NinjaTargetWriter::WriteInputDepsPhonyAndGetDep`
  and the walk-keys filling of `GeneratedFileTargetGenerator::FillWalkKeys`, translated
  directly from the C++ sources in the repository;

* the Rust dependency classification of the Ninja Rust binary writer and the metadata
  walk, whose implementations are not among the provided sources (only their headers
  and unit tests are).  Those are modelled from the specification, and every model is
  evaluated against the literal expectation strings of the unit tests that are in the
  sources (`NinjaRustBinaryTargetWriterTest`, `MetadataWalkTest`).

All graph traversals are written with an explicit fuel parameter; concrete evaluations
use a fuel that is far larger than the depth of the test graphs.
-/

/-! ## Path helpers

GN renders source-absolute paths (`//foo/x`) relative to the build directory
(`../../foo/x`), and object directories as `obj/<dir>`. -/

/-- Render a source-absolute path (`//foo/x.rs`) relative to the build directory
(`../../foo/x.rs`), as `OutputFile(build_settings, source_file)` does. -/
def srcToOut (s : String) : String := "../../" ++ s.drop 2

/-- Object directory (with trailing slash) for a source directory: `//foo/` becomes
`obj/foo/`. -/
def objDirOf (dir : String) : String := "obj/" ++ dir.drop 2

/-- Directory part of an output-relative path: everything before the final slash.
`obj/foo/libx.rlib` gives `obj/foo`; `./libshared.so` gives `.`. -/
def dirOfPath (s : String) : String :=
  String.mk (((s.toList.reverse.dropWhile (fun c => c ≠ '/')).drop 1).reverse)

/-- Base name of a path: everything after the final slash. -/
def baseNameOf (s : String) : String :=
  String.mk ((s.toList.reverse.takeWhile (fun c => c ≠ '/')).reverse)

/-- File stem: base name with the final extension removed.  `//baz/csourceset.cpp`
gives `csourceset`. -/
def stemOf (s : String) : String :=
  String.mk ((((baseNameOf s).toList.reverse.dropWhile (fun c => c ≠ '.')).drop 1).reverse)

/-- Concatenation of the images of a list-valued function, in order. -/
def concatMap (f : α → List β) : List α → List β
  | [] => []
  | a :: l => f a ++ concatMap f l

/-- Append a string to a list if it is not already present (first-occurrence
deduplication). -/
def pushUniq (out : List String) (s : String) : List String :=
  if out.contains s then out else out ++ [s]

/-- First-occurrence deduplication of a whole list. -/
def dedupFirst (l : List String) : List String := l.foldl pushUniq []

/-! ## Data model -/

/-- A target label: a source directory (`//foo/`) plus a short name.  Toolchain
qualifiers play no role in the claims and are omitted. -/
structure Label where
  dir : String
  name : String
deriving DecidableEq, Repr

/-- Rendering of a label as used in metadata walk values and error messages:
`//foo/` + `one` is rendered `//foo:one`. -/
def renderLabel (l : Label) : String := l.dir.dropRight 1 ++ ":" ++ l.name

/-- Target output types, from `Target::OutputType`. -/
inductive OutputType where
  | executable
  | sharedLibrary
  | staticLibrary
  | sourceSet
  | rustLibrary
  | rustProcMacroTy
  | group
  | copyFiles
  | action
  | actionForeach
  | bundleData
  | createBundle
  | generatedFile
deriving DecidableEq, Repr

/-- Rust crate types, from `RustValues::CrateType`. -/
inductive CrateType where
  | bin
  | rlib
  | dylib
  | cdylib
  | procMacroTy
  | staticlib
deriving DecidableEq, Repr

/-- Metadata values: the walk only distinguishes strings (labels, file names)
and booleans (exercised by the unit tests). -/
inductive MetaValue where
  | strV : String → MetaValue
  | boolV : Bool → MetaValue
deriving DecidableEq, Repr

/-- A build-graph target.  Dependency edges carry the dependent targets themselves
(the graph is a DAG; a node reachable along several paths is simply repeated, and
all traversals deduplicate by label, mirroring the pointer-based deduplication of
the source).  Fields, in order: label, output type, whether Rust sources are used
(`source_types_used` contains `SOURCE_RS`), crate name, explicitly set crate type,
whether the toolchain link tool produces a `.TOC` file, `aliased_deps`, metadata
key/value map, sources, public deps, private deps, data deps. -/
inductive Target where
  | mk (label : Label) (outputType : OutputType) (usesRust : Bool)
       (crateName : String) (crateType : Option CrateType) (tocEnabled : Bool)
       (aliasedDeps : List (Label × String))
       (metadata : List (String × List MetaValue))
       (sources : List String)
       (publicDeps : List Target) (privateDeps : List Target) (dataDeps : List Target)

def Target.label : Target → Label
  | .mk l _ _ _ _ _ _ _ _ _ _ _ => l

def Target.outputType : Target → OutputType
  | .mk _ o _ _ _ _ _ _ _ _ _ _ => o

def Target.usesRust : Target → Bool
  | .mk _ _ r _ _ _ _ _ _ _ _ _ => r

def Target.crateName : Target → String
  | .mk _ _ _ n _ _ _ _ _ _ _ _ => n

def Target.crateType : Target → Option CrateType
  | .mk _ _ _ _ c _ _ _ _ _ _ _ => c

def Target.tocEnabled : Target → Bool
  | .mk _ _ _ _ _ toc _ _ _ _ _ _ => toc

def Target.aliasedDeps : Target → List (Label × String)
  | .mk _ _ _ _ _ _ a _ _ _ _ _ => a

def Target.metadata : Target → List (String × List MetaValue)
  | .mk _ _ _ _ _ _ _ m _ _ _ _ => m

def Target.sources : Target → List String
  | .mk _ _ _ _ _ _ _ _ s _ _ _ => s

def Target.publicDeps : Target → List Target
  | .mk _ _ _ _ _ _ _ _ _ p _ _ => p

def Target.privateDeps : Target → List Target
  | .mk _ _ _ _ _ _ _ _ _ _ p _ => p

def Target.dataDeps : Target → List Target
  | .mk _ _ _ _ _ _ _ _ _ _ _ d => d

/-- All dependency edges of a target, in declaration order: public, then private,
then data deps. -/
def Target.allDeps (t : Target) : List Target :=
  t.publicDeps ++ t.privateDeps ++ t.dataDeps

/-- Modelled from the spec: the crate type of a Rust target is the explicitly set
one, otherwise it is inferred from the output type (bin for executables, rlib for
rust libraries, dylib for shared libraries, proc-macro and staticlib likewise). -/
def Target.inferredCrateType (t : Target) : Option CrateType :=
  match t.crateType with
  | some c => some c
  | none =>
    if t.usesRust then
      match t.outputType with
      | .executable => some .bin
      | .rustLibrary => some .rlib
      | .sharedLibrary => some .dylib
      | .rustProcMacroTy => some .procMacroTy
      | .staticLibrary => some .staticlib
      | _ => none
    else none

/-- Modelled from the spec: the primary output path of a target, relative to the
build directory, per the crate-type table of the spec (bin in the root out dir as
`./<crate_name>`, libraries in `obj/<dir>/lib<name>.<ext>`); non-Rust static
libraries are `obj/<dir>/lib<name>.a` and non-Rust shared libraries live in the
root out dir as `./lib<name>.so`. -/
def Target.outputFile (t : Target) : String :=
  if t.usesRust then
    match t.inferredCrateType with
    | some .bin => "./" ++ t.crateName
    | some .rlib => objDirOf t.label.dir ++ "lib" ++ t.label.name ++ ".rlib"
    | some .dylib => objDirOf t.label.dir ++ "lib" ++ t.label.name ++ ".so"
    | some .cdylib => objDirOf t.label.dir ++ "lib" ++ t.label.name ++ ".so"
    | some .procMacroTy => objDirOf t.label.dir ++ "lib" ++ t.label.name ++ ".so"
    | some .staticlib => objDirOf t.label.dir ++ "lib" ++ t.label.name ++ ".a"
    | none => ""
  else
    match t.outputType with
    | .staticLibrary => objDirOf t.label.dir ++ "lib" ++ t.label.name ++ ".a"
    | .sharedLibrary => "./lib" ++ t.label.name ++ ".so"
    | _ => ""

/-! ## Rust writer dependency classification (modelled from the spec)

The Ninja Rust binary writer itself is not among the provided sources (only its
unit test is), so the classification below is modelled from spec sections 4.1 and
4.4: accessible crates are the direct deps plus the recursive public closure of
each direct dep, stopping at proc-macro boundaries and flattening groups; search
directories cover every transitively reachable Rust crate; native-link outputs
come from non-Rust libraries and from Rust cdylibs.  Every function is evaluated
against the literal unit-test expectations further below. -/

/-- How a dependency edge is classified by the Rust writer. -/
inductive DepClass where
  | groupD
  | rustCrate
  | procMac
  | nativeLib
  | objectSet
  | skipD
deriving DecidableEq, Repr

/-- Modelled from the spec: classification of one dependency.  Groups are
flattened; Rust rlibs/dylibs are accessible crates; Rust proc-macros are
accessible but form a closure barrier; Rust cdylibs and staticlibs as well as
non-Rust static/shared libraries are native-link surfaces; non-Rust source sets
contribute object files; everything else is ignored. -/
def classify (d : Target) : DepClass :=
  if d.outputType = .group then .groupD
  else if d.usesRust then
    match d.inferredCrateType with
    | some .rlib => .rustCrate
    | some .dylib => .rustCrate
    | some .procMacroTy => .procMac
    | some .cdylib => .nativeLib
    | some .staticlib => .nativeLib
    | _ => .skipD
  else
    match d.outputType with
    | .staticLibrary => .nativeLib
    | .sharedLibrary => .nativeLib
    | .sourceSet => .objectSet
    | _ => .skipD

/-- One `--extern` argument: the name is the alias recorded in the consuming
target's `aliased_deps` when present, otherwise the dependency crate's own
crate name. -/
def externArg (al : List (Label × String)) (d : Target) : String :=
  "--extern " ++ (((al.find? (fun p => p.1 == d.label)).map Prod.snd).getD d.crateName)
    ++ "=" ++ d.outputFile

/-- Modelled from the spec: depth-first accumulation of the accessible crates as
`--extern` argument strings.  The worklist starts from the direct deps; a group
contributes its public deps as if they were direct; a Rust crate is emitted and
its further public deps stay accessible; a proc-macro is emitted but its own deps
are never entered; duplicates are skipped by label (first occurrence wins). -/
def accessibleAux (al : List (Label × String)) :
    Nat → List Target → List Label → List String → List String
  | 0, _, _, out => out
  | _ + 1, [], _, out => out
  | fuel + 1, d :: rest, seen, out =>
    match classify d with
    | .groupD => accessibleAux al fuel (d.publicDeps ++ rest) seen out
    | .rustCrate =>
      if seen.contains d.label then accessibleAux al fuel rest seen out
      else accessibleAux al fuel (d.publicDeps ++ rest) (d.label :: seen)
        (out ++ [externArg al d])
    | .procMac =>
      if seen.contains d.label then accessibleAux al fuel rest seen out
      else accessibleAux al fuel rest (d.label :: seen) (out ++ [externArg al d])
    | _ => accessibleAux al fuel rest seen out

/-- The `--extern` arguments of a target, in stable DFS first-occurrence order. -/
def Target.externsStrings (t : Target) (fuel : Nat) : List String :=
  accessibleAux t.aliasedDeps fuel (t.publicDeps ++ t.privateDeps) [] []

/-- The value of the emitted `externs` variable (arguments joined by single
spaces). -/
def Target.externsString (t : Target) (fuel : Nat) : String :=
  String.intercalate " " (t.externsStrings fuel)

/-- Modelled from the spec: depth-first accumulation of the `-Ldependency`
directories: one entry per unique directory of every transitively reachable Rust
crate (through public and private edges alike, flattening groups), never entering
the deps of a proc-macro, and ignoring native-link surfaces. -/
def searchDirsAux : Nat → List Target → List Label → List String → List String
  | 0, _, _, out => out
  | _ + 1, [], _, out => out
  | fuel + 1, d :: rest, seen, out =>
    match classify d with
    | .groupD => searchDirsAux fuel (d.publicDeps ++ d.privateDeps ++ rest) seen out
    | .rustCrate =>
      if seen.contains d.label then searchDirsAux fuel rest seen out
      else searchDirsAux fuel (d.publicDeps ++ d.privateDeps ++ rest) (d.label :: seen)
        (pushUniq out (dirOfPath d.outputFile))
    | .procMac =>
      if seen.contains d.label then searchDirsAux fuel rest seen out
      else searchDirsAux fuel rest (d.label :: seen) (pushUniq out (dirOfPath d.outputFile))
    | _ => searchDirsAux fuel rest seen out

/-- Link-arg file and implicit-dependency file for one native library.  When the
library is produced by a toolchain with a table-of-contents step, the link
argument still names the object file itself while the implicit dependency names
the `.TOC` file. -/
def nativePair (d : Target) : String × String :=
  if d.tocEnabled then (d.outputFile, d.outputFile ++ ".TOC")
  else (d.outputFile, d.outputFile)

/-- Object files contributed by a non-Rust source set:
`obj/<dir>/<target-name>.<source-stem>.o` per source. -/
def objectFilesOf (d : Target) : List String :=
  d.sources.map (fun s => objDirOf d.label.dir ++ d.label.name ++ "." ++ stemOf s ++ ".o")

/-- Modelled from the spec: depth-first accumulation of the native-link
surfaces: source-set object files (first component) and native library files
(second component, paired with their implicit-dependency rendering).  Rust
crates propagate the walk through all their edges, groups are flattened, and
proc-macro boundaries are never crossed. -/
def nativesAux : Nat → List Target → List Label →
    List String × List (String × String) → List String × List (String × String)
  | 0, _, _, acc => acc
  | _ + 1, [], _, acc => acc
  | fuel + 1, d :: rest, seen, acc =>
    if seen.contains d.label then nativesAux fuel rest seen acc
    else
      match classify d with
      | .groupD =>
        nativesAux fuel (d.publicDeps ++ d.privateDeps ++ rest) (d.label :: seen) acc
      | .rustCrate =>
        nativesAux fuel (d.publicDeps ++ d.privateDeps ++ rest) (d.label :: seen) acc
      | .procMac => nativesAux fuel rest (d.label :: seen) acc
      | .nativeLib =>
        nativesAux fuel (d.publicDeps ++ rest) (d.label :: seen)
          (acc.1, acc.2 ++ [nativePair d])
      | .objectSet =>
        nativesAux fuel (d.publicDeps ++ rest) (d.label :: seen)
          (acc.1 ++ objectFilesOf d, acc.2)
      | .skipD => nativesAux fuel rest (d.label :: seen) acc

/-- The arguments of the emitted `rustdeps` variable: `-Ldependency` per unique
search directory, then (when any native-link surface exists) `-Lnative` per
unique native directory, `-Clink-arg=-Bdynamic`, and one `-Clink-arg` per native
file in first-occurrence order. -/
def Target.rustdepsStrings (t : Target) (fuel : Nat) : List String :=
  let sd := searchDirsAux fuel (t.publicDeps ++ t.privateDeps) [] []
  let nat := nativesAux fuel (t.publicDeps ++ t.privateDeps) [] ([], [])
  let natFiles := nat.1 ++ nat.2.map Prod.fst
  let natDirs := dedupFirst (natFiles.map dirOfPath)
  sd.map (fun d => "-Ldependency=" ++ d)
    ++ (if natFiles.isEmpty then []
        else natDirs.map (fun d => "-Lnative=" ++ d) ++ ["-Clink-arg=-Bdynamic"]
          ++ natFiles.map (fun f => "-Clink-arg=" ++ f))

/-- The value of the emitted `rustdeps` variable. -/
def Target.rustdepsString (t : Target) (fuel : Nat) : String :=
  String.intercalate " " (t.rustdepsStrings fuel)

/-- Direct Rust dependency outputs (through group flattening only, without the
public closure): these are the Rust outputs that appear in the implicit
dependency list of the build edge. -/
def directRustOutsAux : Nat → List Target → List Label → List String → List String
  | 0, _, _, out => out
  | _ + 1, [], _, out => out
  | fuel + 1, d :: rest, seen, out =>
    match classify d with
    | .groupD => directRustOutsAux fuel (d.publicDeps ++ rest) seen out
    | .rustCrate =>
      if seen.contains d.label then directRustOutsAux fuel rest seen out
      else directRustOutsAux fuel rest (d.label :: seen) (out ++ [d.outputFile])
    | .procMac =>
      if seen.contains d.label then directRustOutsAux fuel rest seen out
      else directRustOutsAux fuel rest (d.label :: seen) (out ++ [d.outputFile])
    | _ => directRustOutsAux fuel rest seen out

/-- The implicit-dependency list (after `|`) of the main build edge: rendered
sources, then source-set object files, then direct Rust dep outputs, then native
library files (the `.TOC` rendering for toolchains with a table-of-contents
step). -/
def Target.implicitDeps (t : Target) (fuel : Nat) : List String :=
  let nat := nativesAux fuel (t.publicDeps ++ t.privateDeps) [] ([], [])
  t.sources.map srcToOut ++ nat.1
    ++ directRustOutsAux fuel (t.publicDeps ++ t.privateDeps) [] []
    ++ nat.2.map Prod.snd

/-! ## Concrete graphs from the `RlibDeps` unit test -/

/-- The `//baz:privatelib` rlib (crate `privatecrate`) of the RlibDeps test. -/
def privateRlib : Target :=
  .mk ⟨"//baz/", "privatelib"⟩ .rustLibrary true "privatecrate" none false [] []
    ["//baz/privatelib.rs", "//baz/lib.rs"] [] [] []

/-- The `//far:farlib` rlib (crate `farcrate`) of the RlibDeps test. -/
def farRlib : Target :=
  .mk ⟨"//far/", "farlib"⟩ .rustLibrary true "farcrate" none false [] []
    ["//far/farlib.rs", "//far/lib.rs"] [] [] []

/-- The `//bar:publiclib` rlib (crate `publiccrate`), public dep on `farlib`. -/
def publicRlib : Target :=
  .mk ⟨"//bar/", "publiclib"⟩ .rustLibrary true "publiccrate" none false [] []
    ["//bar/publiclib.rs", "//bar/lib.rs"] [farRlib] [] []

/-- The `//foo:direct` rlib: public dep on `publiclib`, private dep on
`privatelib`. -/
def directRlib : Target :=
  .mk ⟨"//foo/", "direct"⟩ .rustLibrary true "direct" none false [] []
    ["//foo/direct.rs", "//foo/main.rs"] [publicRlib] [privateRlib] []

/-- The `//main:main` executable (crate `main_crate`), private dep on `direct`. -/
def mainCrate : Target :=
  .mk ⟨"//main/", "main"⟩ .executable true "main_crate" none false [] []
    ["//main/source.rs", "//main/main.rs"] [] [directRlib] []

/-- C1: for the RlibDeps chain (private `direct` with public `publiccrate` with
public `farcrate`, plus private `privatecrate` under `direct`), the executable's
`externs` variable holds exactly the three accessible crates in DFS
first-occurrence order and its `rustdeps` variable holds one `-Ldependency`
entry per unique directory of every transitively reachable Rust dep, including
the search-only `privatecrate`. -/
theorem c1_rlib_chain_externs_rustdeps :
    mainCrate.externsString 100 =
      "--extern direct=obj/foo/libdirect.rlib --extern publiccrate=obj/bar/libpubliclib.rlib --extern farcrate=obj/far/libfarlib.rlib"
    ∧ mainCrate.rustdepsString 100 =
      "-Ldependency=obj/foo -Ldependency=obj/bar -Ldependency=obj/far -Ldependency=obj/baz" :=
  ⟨rfl, rfl⟩

/-! ## Concrete graphs from the `RustProcMacro`, `NonRustDeps` and `CdylibDeps`
unit tests -/

/-- The `//baz/public:mymacropublicdep` rlib (crate `publicdep`). -/
def procPublicDep : Target :=
  .mk ⟨"//baz/public/", "mymacropublicdep"⟩ .rustLibrary true "publicdep" none false [] []
    ["//baz/public/mylib.rs", "//baz/public/lib.rs"] [] [] []

/-- The `//baz/private:mymacroprivatedep` rlib (crate `privatedep`). -/
def procPrivateDep : Target :=
  .mk ⟨"//baz/private/", "mymacroprivatedep"⟩ .rustLibrary true "privatedep" none false [] []
    ["//baz/private/mylib.rs", "//baz/private/lib.rs"] [] [] []

/-- The `//bar:mymacro` proc-macro, parametric in its public and private Rust
deps so that the closure-isolation theorem can quantify over them. -/
def procMacroWith (pd qd : List Target) : Target :=
  .mk ⟨"//bar/", "mymacro"⟩ .rustProcMacroTy true "mymacro" (some .procMacroTy) false [] []
    ["//bar/mylib.rs", "//bar/lib.rs"] pd qd []

/-- The `//foo:bar` executable (crate `foo_bar`) with a private dep on the
proc-macro, parametric in the proc-macro dep lists. -/
def procExeWith (pd qd : List Target) : Target :=
  .mk ⟨"//foo/", "bar"⟩ .executable true "foo_bar" none false [] []
    ["//foo/source.rs", "//foo/main.rs"] [] [procMacroWith pd qd] []

set_option maxHeartbeats 2000000 in
/-- C2: a proc-macro closure barrier.  For arbitrary Rust dep lists of the
proc-macro `mymacro`, the consuming executable's `externs` and `rustdeps` read
exactly as if the proc-macro had no deps at all (so no dep of the macro ever
reaches them), while the macro itself is the executable's one `--extern` and its
directory the one `-Ldependency`; the macro's own build statement still emits
its deps (checked at the unit-test instance). -/
theorem c2_proc_closure_isolation (pd qd : List Target) :
    (procExeWith pd qd).externsString 100 = "--extern mymacro=obj/bar/libmymacro.so"
    ∧ (procExeWith pd qd).rustdepsString 100 = "-Ldependency=obj/bar"
    ∧ (procExeWith pd qd).implicitDeps 100 =
        ["../../foo/source.rs", "../../foo/main.rs", "obj/bar/libmymacro.so"]
    ∧ (procMacroWith [procPublicDep] [procPrivateDep]).externsString 100 =
        "--extern publicdep=obj/baz/public/libmymacropublicdep.rlib --extern privatedep=obj/baz/private/libmymacroprivatedep.rlib"
    ∧ (procMacroWith [procPublicDep] [procPrivateDep]).rustdepsString 100 =
        "-Ldependency=obj/baz/public -Ldependency=obj/baz/private" :=
  ⟨rfl, rfl, rfl, rfl, rfl⟩

/-- The non-Rust `//foo:static` static library of the NonRustDeps test. -/
def cppStaticLib : Target :=
  .mk ⟨"//foo/", "static"⟩ .staticLibrary false "" none false [] []
    ["//foo/static.cpp"] [] [] []

/-- The `//bar:mylib` rlib of the NonRustDeps test. -/
def nrRlib : Target :=
  .mk ⟨"//bar/", "mylib"⟩ .rustLibrary true "mylib" none false [] []
    ["//bar/mylib.rs", "//bar/lib.rs"] [] [] []

/-- The non-Rust `//foo:shared` shared library. -/
def cppSharedLib : Target :=
  .mk ⟨"//foo/", "shared"⟩ .sharedLibrary false "" none false [] []
    ["//foo/static.cpp"] [] [] []

/-- The non-Rust `//baz:sourceset` source set. -/
def cppSourceSet : Target :=
  .mk ⟨"//baz/", "sourceset"⟩ .sourceSet false "" none false [] []
    ["//baz/csourceset.cpp"] [] [] []

/-- The non-Rust `//foo:shared_with_toc` shared library whose toolchain link
tool produces a `.TOC` file. -/
def cppSharedLibToc : Target :=
  .mk ⟨"//foo/", "shared_with_toc"⟩ .sharedLibrary false "" none true [] []
    ["//foo/static.cpp"] [] [] []

/-- The `//foo:bar` Rust executable of the NonRustDeps test, with private deps
on the rlib, the static library, the shared library, the source set and the
TOC-producing shared library, in that order. -/
def nonRustExe : Target :=
  .mk ⟨"//foo/", "bar"⟩ .executable true "foo_bar" none false [] []
    ["//foo/source.rs", "//foo/main.rs"] []
    [nrRlib, cppStaticLib, cppSharedLib, cppSourceSet, cppSharedLibToc] []

/-- The second executable of the NonRustDeps test, whose only dep is the static
library. -/
def nonRustOnlyExe : Target :=
  .mk ⟨"//foo/", "bar"⟩ .executable true "foo_bar" none false [] []
    ["//foo/source.rs", "//foo/main.rs"] [] [cppStaticLib] []

/-- C6: native-link dependencies of a Rust target.  `rustdeps` carries one
`-Lnative` per unique native directory, then `-Clink-arg=-Bdynamic`, then one
`-Clink-arg` per native file in first-occurrence order; for the shared library
with a table of contents the link argument names `./libshared_with_toc.so`
itself while the implicit-dependency list names `./libshared_with_toc.so.TOC`. -/
theorem c6_native_link_deps :
    nonRustExe.rustdepsString 100 =
      "-Ldependency=obj/bar -Lnative=obj/baz -Lnative=obj/foo -Lnative=. -Clink-arg=-Bdynamic -Clink-arg=obj/baz/sourceset.csourceset.o -Clink-arg=obj/foo/libstatic.a -Clink-arg=./libshared.so -Clink-arg=./libshared_with_toc.so"
    ∧ nonRustExe.implicitDeps 100 =
      ["../../foo/source.rs", "../../foo/main.rs", "obj/baz/sourceset.csourceset.o",
        "obj/bar/libmylib.rlib", "obj/foo/libstatic.a", "./libshared.so",
        "./libshared_with_toc.so.TOC"]
    ∧ nonRustOnlyExe.rustdepsString 100 =
      "-Lnative=obj/foo -Clink-arg=-Bdynamic -Clink-arg=obj/foo/libstatic.a" :=
  ⟨rfl, rfl, rfl⟩

/-- The `//bar:mylib` Rust shared library of crate type cdylib. -/
def cdylibTarget : Target :=
  .mk ⟨"//bar/", "mylib"⟩ .sharedLibrary true "mylib" (some .cdylib) false [] []
    ["//bar/lib.rs"] [] [] []

/-- The `//foo:bar` executable with a private dep on the cdylib. -/
def cdylibExe : Target :=
  .mk ⟨"//foo/", "bar"⟩ .executable true "foo_bar" none false [] []
    ["//foo/source.rs", "//foo/main.rs"] [] [cdylibTarget] []

/-- C7: a cdylib dep of a Rust executable is linked as a native library: the
executable's `externs` is empty, its `rustdeps` is
`-Lnative=<dir> -Clink-arg=-Bdynamic -Clink-arg=<file>`, and the cdylib output
file still appears in the implicit-dependency list. -/
theorem c7_cdylib_native_link :
    cdylibExe.externsString 100 = ""
    ∧ cdylibExe.rustdepsString 100 =
        "-Lnative=obj/bar -Clink-arg=-Bdynamic -Clink-arg=obj/bar/libmylib.so"
    ∧ cdylibExe.implicitDeps 100 =
        ["../../foo/source.rs", "../../foo/main.rs", "obj/bar/libmylib.so"]
    ∧ "obj/bar/libmylib.so" ∈ cdylibExe.implicitDeps 100 :=
  ⟨rfl, rfl, rfl, by decide⟩

/-! ## Resolution of Rust source sets (C10)

`Target::OnResolved` is not among the provided sources.  The check below is
modelled from the spec, which lists the output kinds the Rust writer covers
(executable, rust library, dylib/cdylib shared library, proc-macro, static
library with Rust sources) and omits source sets, and it is pinned by the
`RustSourceSet` unit test in the sources, which asserts that `OnResolved`
returns false for a SOURCE_SET target whose used source types include Rust. -/

/-- Modelled from the spec: the resolution-time acceptance check relevant to the
claims.  A SOURCE_SET whose used source types include Rust fails to resolve;
the other checks of OnResolved (cycles, visibility, crate root membership) are
out of scope of the claims and omitted. -/
def Target.onResolvedOk (t : Target) : Bool :=
  !(t.outputType == OutputType.sourceSet && t.usesRust)

/-- The `//foo:bar` source set with Rust sources of the RustSourceSet test. -/
def rustSourceSetTarget : Target :=
  .mk ⟨"//foo/", "bar"⟩ .sourceSet true "" none false [] []
    ["//foo/input1.rs", "//foo/main.rs"] [] [] []

/-- C10: every SOURCE_SET target whose used source types include Rust fails
resolution, however well-formed it is otherwise. -/
theorem c10_rust_source_set_rejected (t : Target)
    (ho : t.outputType = OutputType.sourceSet) (hr : t.usesRust = true) :
    t.onResolvedOk = false := by
  simp [Target.onResolvedOk, ho, hr]

/-- Witness for C10: the concrete target of the RustSourceSet unit test is
rejected. -/
theorem c10_rust_source_set_rejected_witness :
    rustSourceSetTarget.onResolvedOk = false :=
  c10_rust_source_set_rejected rustSourceSetTarget (by decide) (by decide)

/-! ## The GN value model and `GeneratedFileTargetGenerator::FillWalkKeys` (C8)

This part is translated directly from
`generated_file_target_generator.cc` in the sources. -/

/-- GN values: a tagged sum of string, boolean, integer, list and scope
(`Value::Type`).  Origins are omitted. -/
inductive GnValue where
  | strV : String → GnValue
  | boolV : Bool → GnValue
  | intV : Int → GnValue
  | listV : List GnValue → GnValue
  | scopeV : GnValue

/-- Errors produced by the generator: a `VerifyTypeIs` type mismatch, or the
`ContentsDefined` conflict (a metadata-collection variable set alongside
`contents`). -/
inductive GenErr where
  | typeMismatch
  | wontBeUsed
deriving DecidableEq, Repr

/-- Extract the string values of a GN list, failing with a type error on the
first element that is not a string, as the per-element `VerifyTypeIs(STRING)`
loop of `FillWalkKeys` does. -/
def extractStrings : List GnValue → Except GenErr (List String)
  | [] => .ok []
  | .strV s :: rest =>
    match extractStrings rest with
    | .error e => .error e
    | .ok ss => .ok (s :: ss)
  | _ :: _ => .error .typeMismatch

/-- Translation of `GeneratedFileTargetGenerator::FillWalkKeys`.  `value` is the
result of `scope_->GetValue(kWalkKeys, true)`; `contentsDefined` mirrors the
`contents_defined_` flag; `walkKeys` is the current `target_->walk_keys()`
vector, and the result is its final contents on success.  When the variable is
unset the default is a one-element list holding the empty string; when set it
must be a list of strings. -/
def FillWalkKeys (value : Option GnValue) (contentsDefined : Bool)
    (walkKeys : List String) : Except GenErr (List String) :=
  match value with
  | none => .ok (walkKeys ++ [""])
  | some v =>
    if contentsDefined then .error .wontBeUsed
    else
      match v with
      | .listV vs =>
        match extractStrings vs with
        | .error e => .error e
        | .ok ss => .ok (walkKeys ++ ss)
      | _ => .error .typeMismatch

/-- Helper: a non-string element anywhere in the list makes `extractStrings`
fail with a type error. -/
theorem extractStrings_error_of_nonstring :
    ∀ (vs : List GnValue), (∃ x ∈ vs, ∀ s, x ≠ GnValue.strV s) →
    extractStrings vs = .error .typeMismatch := by
  intro vs
  induction vs with
  | nil => rintro ⟨x, hx, -⟩; cases hx
  | cons a rest ih =>
    rintro ⟨x, hx, hns⟩
    rcases List.mem_cons.mp hx with h | h
    · subst h
      cases x with
      | strV s => exact absurd rfl (hns s)
      | boolV b => rfl
      | intV n => rfl
      | listV l => rfl
      | scopeV => rfl
    · cases a with
      | strV s =>
        have := ih ⟨x, h, hns⟩
        simp only [extractStrings, this]
      | boolV b => rfl
      | intV n => rfl
      | listV l => rfl
      | scopeV => rfl

/-- Helper: a list of strings extracts to exactly those strings. -/
theorem extractStrings_ok (ss : List String) :
    extractStrings (ss.map GnValue.strV) = .ok ss := by
  induction ss with
  | nil => rfl
  | cons s rest ih => simp only [List.map_cons, extractStrings, ih]

/-- C8: when the `walk_keys` variable is unset, the generator populates the
target with exactly the one-element list containing the empty string, whatever
the other state; when it is set (and `contents` is not), a list of strings is
accepted as given, and any non-string element makes generation fail with a type
error. -/
theorem c8_fill_walk_keys (ks : List String) (cd : Bool) (vs : List GnValue)
    (ss : List String) (hbad : ∃ x ∈ vs, ∀ s, x ≠ GnValue.strV s) :
    FillWalkKeys none cd ks = .ok (ks ++ [""])
    ∧ FillWalkKeys (some (.listV (ss.map GnValue.strV))) false ks = .ok (ks ++ ss)
    ∧ FillWalkKeys (some (.listV vs)) false ks = .error .typeMismatch := by
  refine ⟨rfl, ?_, ?_⟩
  · simp only [FillWalkKeys, extractStrings_ok]
    rfl
  · simp only [FillWalkKeys, extractStrings_error_of_nonstring vs hbad]
    rfl

/-- Witness for C8: on concrete inputs, the default applies when the variable is
unset, a string list is accepted, and a boolean element is rejected with a type
error. -/
theorem c8_fill_walk_keys_witness :
    FillWalkKeys none false [] = .ok [""]
    ∧ FillWalkKeys (some (.listV [GnValue.strV "walk"])) false [] = .ok ["walk"]
    ∧ FillWalkKeys (some (.listV [GnValue.boolV true])) false [] = .error .typeMismatch :=
  c8_fill_walk_keys [] false [GnValue.boolV true] ["walk"]
    ⟨GnValue.boolV true, List.mem_cons_self _ _, fun _ h => GnValue.noConfusion h⟩

/-! ## `NinjaTargetWriter::WriteInputDepsPhonyAndGetDep` (C3, C9)

This part is translated directly from `ninja_target_writer.cc` in the sources.
The function reads, from the target: the output type, the action script, the
configured input files, the sources, the recursive hard deps (a pointer-ordered
set in C++, here a list in an arbitrary order), and the toolchain deps; its
other inputs are the additional hard deps and the number of times the caller
will reference the returned list. -/

/-- The slice of a dependent target read by the input-deps collection: its
label, output type and `dependency_output_file_or_phony()`. -/
structure DepTarget where
  label : Label
  outputType : OutputType
  depOutput : Option String
deriving DecidableEq, Repr

/-- The slice of the written target read by `WriteInputDepsPhonyAndGetDep`. -/
structure NinjaTargetView where
  label : Label
  outputType : OutputType
  script : String
  sources : List String
  configInputs : List String
  recursiveHardDeps : List DepTarget
  toolchainDeps : List DepTarget
deriving Repr

/-- `Target::IsBinary()`: the output types dispatched to the binary writer in
`NinjaTargetWriter::RunAndWriteFile` (everything that is not a bundle, copy,
action, group or generated-file target). -/
def OutputType.isBinary : OutputType → Bool
  | .executable => true
  | .sharedLibrary => true
  | .staticLibrary => true
  | .sourceSet => true
  | .rustLibrary => true
  | .rustProcMacroTy => true
  | _ => false

/-- The collected input files (`input_deps_sources`): the script for actions and
action-foreach targets, the configured inputs for non-binary targets, and the
sources for actions. -/
def inputDepsSources (t : NinjaTargetView) : List String :=
  (if t.outputType = .action ∨ t.outputType = .actionForeach then [t.script] else [])
    ++ (if t.outputType.isBinary then [] else t.configInputs)
    ++ (if t.outputType = .action then t.sources else [])

/-- The collected input targets (`input_deps_targets`): the recursive hard deps
with BUNDLE_DATA kept only under a CREATE_BUNDLE target, then the additional
hard deps that are not already recursive hard deps, then the toolchain deps. -/
def inputDepsTargets (t : NinjaTargetView) (additionalHardDeps : List DepTarget) :
    List DepTarget :=
  t.recursiveHardDeps.filter
      (fun d => !(d.outputType == OutputType.bundleData)
        || t.outputType == OutputType.createBundle)
    ++ additionalHardDeps.filter
        (fun d => !(t.recursiveHardDeps.any (fun h => h.label == d.label)))
    ++ t.toolchainDeps

/-- The deterministic sort of target input deps: lexicographic on the label
(directory, then name), as `a->label() < b->label()` does. -/
def labelLe (a b : Label) : Prop :=
  a.dir < b.dir ∨ (a.dir = b.dir ∧ a.name ≤ b.name)

instance : DecidableRel labelLe := fun a b => by
  unfold labelLe; infer_instance

/-- The sort relation on collected dep targets compares labels only. -/
def depLe (a b : DepTarget) : Prop := labelLe a.label b.label

instance : DecidableRel depLe := fun a b => by
  unfold depLe; infer_instance

instance : IsTotal DepTarget depLe where
  total a b := by
    unfold depLe labelLe
    rcases lt_trichotomy a.label.dir b.label.dir with h | h | h
    · exact Or.inl (Or.inl h)
    · rcases le_total a.label.name b.label.name with hn | hn
      · exact Or.inl (Or.inr ⟨h, hn⟩)
      · exact Or.inr (Or.inr ⟨h.symm, hn⟩)
    · exact Or.inr (Or.inl h)

instance : IsTrans DepTarget depLe where
  trans a b c hab hbc := by
    unfold depLe labelLe at *
    rcases hab with h₁ | ⟨e₁, n₁⟩
    · rcases hbc with h₂ | ⟨e₂, _⟩
      · exact Or.inl (h₁.trans h₂)
      · exact Or.inl (e₂ ▸ h₁)
    · rcases hbc with h₂ | ⟨e₂, n₂⟩
      · exact Or.inl (e₁ ▸ h₂)
      · exact Or.inr ⟨e₁.trans e₂, n₁.trans n₂⟩

/-- Mutual `labelLe` forces equal labels. -/
theorem labelLe_antisymm {a b : Label} (hab : labelLe a b) (hba : labelLe b a) :
    a = b := by
  unfold labelLe at hab hba
  rcases hab with h₁ | ⟨e₁, n₁⟩
  · rcases hba with h₂ | ⟨e₂, _⟩
    · exact absurd h₂ (lt_asymm h₁)
    · exact absurd (e₂ ▸ h₁) (lt_irrefl _)
  · rcases hba with h₂ | ⟨e₂, n₂⟩
    · exact absurd (e₁ ▸ h₂) (lt_irrefl _)
    · cases a; cases b
      simp only [Label.mk.injEq]
      exact ⟨e₁, le_antisymm n₁ n₂⟩

/-- Sorting the collected target deps by label. -/
def sortByLabel (l : List DepTarget) : List DepTarget :=
  List.insertionSort depLe l

/-- Translation of `NinjaTargetWriter::WriteInputDepsPhonyAndGetDep`.  Returns
the text written to the stream and the returned list of output files.  With no
collected inputs nothing is written and the empty list returned; a single
collected file input is returned directly; a single collected target input
contributes its dependency output (or nothing); otherwise the outputs are the
rendered files followed by the label-sorted target outputs, returned directly
when the caller will reference them exactly once, and wrapped in a
`<target>.inputdeps` phony edge otherwise. -/
def writeInputDepsCore (lab : Label) (srcs : List String) (tgts : List DepTarget)
    (numOutputUses : Nat) : String × List String :=
  if srcs.length + tgts.length = 0 then ("", [])
  else if srcs.length = 1 ∧ tgts.length = 0 then ("", srcs.map srcToOut)
  else if srcs.length = 0 ∧ tgts.length = 1 then
    ("", (tgts.head?.bind DepTarget.depOutput).toList)
  else
    let outs := srcs.map srcToOut ++ (sortByLabel tgts).filterMap DepTarget.depOutput
    if numOutputUses = 1 then ("", outs)
    else
      let phony := objDirOf lab.dir ++ lab.name ++ ".inputdeps"
      ("build " ++ phony ++ ": phony" ++ String.join (outs.map (fun o => " " ++ o)) ++ "\n",
        [phony])

def WriteInputDepsPhonyAndGetDep (t : NinjaTargetView)
    (additionalHardDeps : List DepTarget) (numOutputUses : Nat) :
    String × List String :=
  writeInputDepsCore t.label (inputDepsSources t)
    (inputDepsTargets t additionalHardDeps) numOutputUses

/-- A group target with two configured input files and nothing else, used as the
counterexample input for C3. -/
def c3Group : NinjaTargetView :=
  { label := ⟨"//foo/", "gen"⟩, outputType := .group, script := ""
    sources := [], configInputs := ["//foo/a.txt", "//foo/b.txt"]
    recursiveHardDeps := [], toolchainDeps := [] }

/-- Counterexample for C3: with two collected input files and a caller that
references the result exactly once, the code writes no phony at all and returns
both inputs directly as a two-element list, where the claim demands a phony
build edge and a one-element list; the claim also demands that a single input be
returned directly only when referenced exactly once, yet with five references a
single input is still returned directly and nothing is written. -/
theorem c3_counterexample :
    WriteInputDepsPhonyAndGetDep c3Group [] 1
      = ("", ["../../foo/a.txt", "../../foo/b.txt"])
    ∧ (WriteInputDepsPhonyAndGetDep c3Group [] 1).2.length = 2
    ∧ WriteInputDepsPhonyAndGetDep
        { c3Group with configInputs := ["//foo/a.txt"] } [] 5
      = ("", ["../../foo/a.txt"]) := by
  refine ⟨rfl, rfl, rfl⟩

/-- C3 (amended): the emission policy of `WriteInputDepsPhonyAndGetDep`.  With
no collected inputs, nothing is written and the empty list is returned.  A
single collected file input is returned directly, with no phony, regardless of
the number of uses; a single collected target input likewise contributes its
dependency output directly (or nothing when it has none).  With two or more
collected inputs and a caller that references the result exactly once, all
inputs are returned directly (files in list order, then target outputs sorted
by label) and no phony is written; only with two or more inputs and more than
one use is the `<target-out-dir>/<target-name>.inputdeps` phony written and
returned as a one-element list. -/
theorem c3_input_deps_policy (t : NinjaTargetView) (adds : List DepTarget)
    (uses : Nat) :
    (inputDepsSources t = [] → inputDepsTargets t adds = [] →
      WriteInputDepsPhonyAndGetDep t adds uses = ("", []))
    ∧ (∀ s, inputDepsSources t = [s] → inputDepsTargets t adds = [] →
      WriteInputDepsPhonyAndGetDep t adds uses = ("", [srcToOut s]))
    ∧ (∀ d, inputDepsSources t = [] → inputDepsTargets t adds = [d] →
      WriteInputDepsPhonyAndGetDep t adds uses = ("", d.depOutput.toList))
    ∧ (2 ≤ (inputDepsSources t).length + (inputDepsTargets t adds).length →
      uses = 1 →
      WriteInputDepsPhonyAndGetDep t adds uses =
        ("", (inputDepsSources t).map srcToOut
          ++ (sortByLabel (inputDepsTargets t adds)).filterMap DepTarget.depOutput))
    ∧ (2 ≤ (inputDepsSources t).length + (inputDepsTargets t adds).length →
      uses ≠ 1 →
      WriteInputDepsPhonyAndGetDep t adds uses =
        ("build " ++ (objDirOf t.label.dir ++ t.label.name ++ ".inputdeps") ++ ": phony"
            ++ String.join (((inputDepsSources t).map srcToOut
              ++ (sortByLabel (inputDepsTargets t adds)).filterMap
                  DepTarget.depOutput).map (fun o => " " ++ o)) ++ "\n",
          [objDirOf t.label.dir ++ t.label.name ++ ".inputdeps"])) := by
  refine ⟨?_, ?_, ?_, ?_, ?_⟩
  · intro h1 h2
    simp [WriteInputDepsPhonyAndGetDep, writeInputDepsCore, h1, h2]
  · intro s h1 h2
    simp [WriteInputDepsPhonyAndGetDep, writeInputDepsCore, h1, h2]
  · intro d h1 h2
    simp [WriteInputDepsPhonyAndGetDep, writeInputDepsCore, h1, h2]
  · intro hlen huse
    have h0 : ¬((inputDepsSources t).length + (inputDepsTargets t adds).length = 0) := by
      omega
    have h1 : ¬((inputDepsSources t).length = 1
        ∧ (inputDepsTargets t adds).length = 0) := by omega
    have h2 : ¬((inputDepsSources t).length = 0
        ∧ (inputDepsTargets t adds).length = 1) := by omega
    simp only [WriteInputDepsPhonyAndGetDep, writeInputDepsCore, if_neg h0, if_neg h1,
      if_neg h2, if_pos huse]
  · intro hlen huse
    have h0 : ¬((inputDepsSources t).length + (inputDepsTargets t adds).length = 0) := by
      omega
    have h1 : ¬((inputDepsSources t).length = 1
        ∧ (inputDepsTargets t adds).length = 0) := by omega
    have h2 : ¬((inputDepsSources t).length = 0
        ∧ (inputDepsTargets t adds).length = 1) := by omega
    simp only [WriteInputDepsPhonyAndGetDep, writeInputDepsCore, if_neg h0, if_neg h1,
      if_neg h2, if_neg huse]

/-- Witness for C3 (amended): the two-input group target with two uses gets the
phony edge, written out literally. -/
theorem c3_input_deps_policy_witness :
    WriteInputDepsPhonyAndGetDep c3Group [] 2
      = ("build obj/foo/gen.inputdeps: phony ../../foo/a.txt ../../foo/b.txt\n",
          ["obj/foo/gen.inputdeps"]) := by
  have h := (c3_input_deps_policy c3Group [] 2).2.2.2.2 (by decide) (by decide)
  exact h.trans (by decide)

/-! ## Determinism of the input-deps emission (C9)

The C++ collects recursive hard deps from a `std::set<const Target*>`, whose
iteration order is pointer order and therefore run-dependent; the writer sorts
the collected targets by label precisely so that the emitted text does not
depend on that order.  The theorems below prove that the emitted text and the
returned list are invariant under an arbitrary permutation of the hard-deps
iteration order, provided labels are distinct (the label index is a functional
mapping, a stated graph invariant). -/

/-- `List.any` only depends on the multiset of elements. -/
theorem any_eq_of_perm {l₁ l₂ : List α} (h : l₁.Perm l₂) (f : α → Bool) :
    l₁.any f = l₂.any f := by
  induction h with
  | nil => rfl
  | cons a _ ih => simp only [List.any_cons, ih]
  | swap a b l =>
    simp only [List.any_cons]
    rw [← Bool.or_assoc, Bool.or_comm (f b) (f a), Bool.or_assoc]
  | trans _ _ ih₁ ih₂ => exact ih₁.trans ih₂

/-- `depLe` is reflexive. -/
theorem depLe_refl (a : DepTarget) : depLe a a :=
  Or.inr ⟨rfl, le_refl _⟩

/-- Two sorted lists that are permutations of each other and whose elements are
determined by their labels are equal (the local antisymmetry replaces the
global `IsAntisymm` requirement, which fails for `depLe` since it only compares
labels). -/
theorem eq_of_perm_sorted_labels :
    ∀ {l₁ l₂ : List DepTarget}, l₁.Perm l₂ →
    l₁.Sorted depLe → l₂.Sorted depLe →
    (∀ a ∈ l₂, ∀ b ∈ l₂, a.label = b.label → a = b) → l₁ = l₂ := by
  intro l₁
  induction l₁ with
  | nil =>
    intro l₂ hp _ _ _
    exact hp.nil_eq
  | cons a t₁ ih =>
    intro l₂ hp hs₁ hs₂ hinj
    cases l₂ with
    | nil => simpa using hp.length_eq
    | cons b t₂ =>
      have hab : a ∈ b :: t₂ := hp.subset (List.mem_cons_self a t₁)
      have hba : b ∈ a :: t₁ := hp.symm.subset (List.mem_cons_self b t₂)
      have hle₁ : depLe a b := by
        rcases List.mem_cons.mp hba with h | h
        · exact h ▸ depLe_refl a
        · exact List.rel_of_sorted_cons hs₁ b h
      have hle₂ : depLe b a := by
        rcases List.mem_cons.mp hab with h | h
        · exact h ▸ depLe_refl b
        · exact List.rel_of_sorted_cons hs₂ a h
      have heq : a = b :=
        hinj a hab b (List.mem_cons_self b t₂) (labelLe_antisymm hle₁ hle₂)
      subst heq
      have hp' : t₁.Perm t₂ := hp.cons_inv
      have htail := ih hp' hs₁.of_cons hs₂.of_cons
        (fun x hx y hy hxy =>
          hinj x (List.mem_cons_of_mem a hx) y (List.mem_cons_of_mem a hy) hxy)
      rw [htail]

/-- Sorting by label gives the same list for any iteration order of the same
set, when labels are distinct. -/
theorem sortByLabel_eq_of_perm {l₁ l₂ : List DepTarget} (h : l₁.Perm l₂)
    (hnd : (l₂.map DepTarget.label).Nodup) :
    sortByLabel l₁ = sortByLabel l₂ := by
  apply eq_of_perm_sorted_labels
  · exact (List.perm_insertionSort depLe l₁).trans
      (h.trans (List.perm_insertionSort depLe l₂).symm)
  · exact List.sorted_insertionSort depLe l₁
  · exact List.sorted_insertionSort depLe l₂
  · intro a ha b hb hab
    have hmem := (List.perm_insertionSort depLe l₂).subset
    exact List.inj_on_of_nodup_map hnd (hmem ha) (hmem hb) hab

/-- The emission policy only depends on the collected target deps through their
multiset: any two iteration orders with distinct labels produce identical text
and identical returned lists. -/
theorem writeInputDepsCore_perm (lab : Label) (srcs : List String) (uses : Nat)
    {T T' : List DepTarget} (hperm : T'.Perm T)
    (hnd : (T.map DepTarget.label).Nodup) :
    writeInputDepsCore lab srcs T' uses = writeInputDepsCore lab srcs T uses := by
  have hlen : T'.length = T.length := hperm.length_eq
  have hsort : sortByLabel T' = sortByLabel T := sortByLabel_eq_of_perm hperm hnd
  by_cases h2 : srcs.length = 0 ∧ T.length = 1
  · obtain ⟨d, hT⟩ := List.length_eq_one.mp h2.2
    have hT' : T' = [d] := List.perm_singleton.mp (hT ▸ hperm)
    rw [hT', hT]
  · unfold writeInputDepsCore
    rw [hlen, hsort]
    simp only [if_neg h2]

/-- C9: `WriteInputDepsPhonyAndGetDep` is a deterministic function of the
target: permuting the iteration order of the recursive-hard-deps set (the one
order-sensitive, set-derived input) changes neither the written text nor the
returned list, provided the labels of the collected targets are pairwise
distinct. -/
theorem c9_emission_deterministic (t : NinjaTargetView) (adds : List DepTarget)
    (uses : Nat) (hd : List DepTarget)
    (hperm : t.recursiveHardDeps.Perm hd)
    (hnd : ((t.recursiveHardDeps ++ adds ++ t.toolchainDeps).map DepTarget.label).Nodup) :
    WriteInputDepsPhonyAndGetDep { t with recursiveHardDeps := hd } adds uses
      = WriteInputDepsPhonyAndGetDep t adds uses := by
  have hfil : adds.filter (fun d => !(hd.any (fun x => x.label == d.label)))
      = adds.filter
        (fun d => !(t.recursiveHardDeps.any (fun x => x.label == d.label))) :=
    List.filter_congr (fun x _ => by rw [any_eq_of_perm hperm.symm])
  have hTperm : (inputDepsTargets { t with recursiveHardDeps := hd } adds).Perm
      (inputDepsTargets t adds) := by
    show (hd.filter (fun d => !(d.outputType == OutputType.bundleData)
            || t.outputType == OutputType.createBundle)
          ++ adds.filter (fun d => !(hd.any (fun x => x.label == d.label)))
          ++ t.toolchainDeps).Perm
        (t.recursiveHardDeps.filter (fun d => !(d.outputType == OutputType.bundleData)
            || t.outputType == OutputType.createBundle)
          ++ adds.filter
              (fun d => !(t.recursiveHardDeps.any (fun x => x.label == d.label)))
          ++ t.toolchainDeps)
    rw [hfil]
    exact (((hperm.symm.filter _).append_right _).append_right _)
  have hsub : (inputDepsTargets t adds).Sublist
      (t.recursiveHardDeps ++ adds ++ t.toolchainDeps) :=
    ((List.filter_sublist _).append (List.filter_sublist _)).append
      (List.Sublist.refl _)
  have hnd' : ((inputDepsTargets t adds).map DepTarget.label).Nodup :=
    List.Nodup.sublist (hsub.map DepTarget.label) hnd
  show writeInputDepsCore t.label (inputDepsSources t)
      (inputDepsTargets { t with recursiveHardDeps := hd } adds) uses
    = writeInputDepsCore t.label (inputDepsSources t) (inputDepsTargets t adds) uses
  exact writeInputDepsCore_perm t.label (inputDepsSources t) uses hTperm hnd'

/-- A view with two hard deps, used to witness C9. -/
def c9View : NinjaTargetView :=
  { label := ⟨"//foo/", "bar"⟩, outputType := .group, script := ""
    sources := [], configInputs := []
    recursiveHardDeps := [⟨⟨"//a/", "a"⟩, .action, some "obj/a/a.stamp"⟩,
      ⟨⟨"//b/", "b"⟩, .action, some "obj/b/b.stamp"⟩]
    toolchainDeps := [] }

/-- Witness for C9: swapping the two hard deps of the concrete view leaves the
emitted phony edge and the returned list unchanged. -/
theorem c9_emission_deterministic_witness :
    WriteInputDepsPhonyAndGetDep
      { c9View with recursiveHardDeps := [⟨⟨"//b/", "b"⟩, .action, some "obj/b/b.stamp"⟩,
          ⟨⟨"//a/", "a"⟩, .action, some "obj/a/a.stamp"⟩] } [] 2
      = WriteInputDepsPhonyAndGetDep c9View [] 2 :=
  c9_emission_deterministic c9View [] 2
    [⟨⟨"//b/", "b"⟩, .action, some "obj/b/b.stamp"⟩,
      ⟨⟨"//a/", "a"⟩, .action, some "obj/a/a.stamp"⟩]
    (List.Perm.swap _ _ _) (by decide)

/-! ## Metadata walk (C4, C5)

The implementation of `WalkMetadata` / `Target::GetMetadata` is not among the
provided sources; only the `Metadata` header and the `MetadataWalkTest` unit
tests are.  The walk below is modelled from spec section 4.2: visiting a target
appends, for each data key, the elements of the corresponding metadata list;
the walk-key values of the visited target are then consulted as label strings,
where a non-empty entry must resolve to a direct or transitive dependency
(otherwise the walk fails with the exact message asserted by the tests) and the
empty string means "continue walking through all deps"; the visited set
deduplicates by label in first-visit order.  Fuel exhaustion is reported as an
error, so a successful run is a complete run. -/

/-- Look up a metadata key; a missing key contributes nothing. -/
def metaLookup (md : List (String × List MetaValue)) (k : String) : List MetaValue :=
  ((md.find? (fun p => p.1 == k)).map Prod.snd).getD []

/-- The values collected for the data keys on one target, in key order. -/
def dataValsOf (dk : List String) (t : Target) : List MetaValue :=
  concatMap (fun k => metaLookup t.metadata k) dk

/-- The walk-key values of one target, in key order. -/
def walkVals (wk : List String) (t : Target) : List MetaValue :=
  concatMap (fun k => metaLookup t.metadata k) wk

/-- The string-valued walk-key values of one target (the labels it names,
possibly including the empty string). -/
def strValsOf (wk : List String) (t : Target) : List String :=
  (walkVals wk t).filterMap (fun v => match v with
    | .strV s => some s
    | _ => none)

/-- Modelled from the spec: search the transitive dependencies for a target
whose rendered label is the given string. -/
def findDepAux : Nat → List Target → String → Option Target
  | 0, _, _ => none
  | _ + 1, [], _ => none
  | fuel + 1, d :: rest, s =>
    if renderLabel d.label = s then some d
    else
      match findDepAux fuel d.allDeps s with
      | some r => some r
      | none => findDepAux fuel rest s

/-- Walk failures: fuel exhaustion, a non-string walk-key value, or a walk-key
value that does not resolve to a dependency of the target that names it. -/
inductive WalkErr where
  | fuelOut
  | notAString
  | notADep (lbl : String) (tl : Label)
deriving DecidableEq, Repr

/-- Rendering of walk errors; the dependency message is the literal asserted by
the `CollectWithError` unit test. -/
def walkErrMsg : WalkErr → String
  | .fuelOut => "metadata walk exceeded the recursion budget"
  | .notAString => "Value must be a string."
  | .notADep l tl =>
    "I was expecting " ++ l ++ " to be a dependency of " ++ renderLabel tl
      ++ ". Make sure it\x27s included in the deps or data_deps."

/-- Modelled from the spec: resolve the walk-key values of target `t` to the
list of targets to walk next, in value order.  The empty string contributes all
deps; a non-empty string must resolve among the transitive deps; a non-string
value is a type error. -/
def resolveEntries (fuel : Nat) (t : Target) :
    List MetaValue → Except WalkErr (List Target)
  | [] => .ok []
  | .boolV _ :: _ => .error .notAString
  | .strV s :: rest =>
    if s = "" then
      match resolveEntries fuel t rest with
      | .error e => .error e
      | .ok ns => .ok (t.allDeps ++ ns)
    else
      match findDepAux fuel t.allDeps s with
      | none => .error (.notADep s t.label)
      | some n =>
        match resolveEntries fuel t rest with
        | .error e => .error e
        | .ok ns => .ok (n :: ns)

/-- The walk state: visited targets in first-visit order, and the collected
result values. -/
structure WalkState where
  visited : List Target
  result : List MetaValue

/-- Modelled from the spec: the depth-first metadata walk over a worklist.
A target already visited (by label) is skipped; otherwise it is visited (its
data-key values appended), its walk-key values resolved, the resolved targets
walked, and then the rest of the worklist. -/
def walkAux (dk wk : List String) : Nat → List Target → WalkState →
    Except WalkErr WalkState
  | 0, _, _ => .error .fuelOut
  | _ + 1, [], st => .ok st
  | fuel + 1, t :: rest, st =>
    if st.visited.any (fun v => v.label == t.label) then
      walkAux dk wk fuel rest st
    else
      match resolveEntries fuel t (walkVals wk t) with
      | .error e => .error e
      | .ok nexts =>
        match walkAux dk wk fuel nexts
            ⟨st.visited ++ [t], st.result ++ dataValsOf dk t⟩ with
        | .error e => .error e
        | .ok st₂ => walkAux dk wk fuel rest st₂

/-- Modelled from the spec: `WalkMetadata`.  Returns the collected values, the
visited labels in first-visit order, and the error message if any; on failure
the collected values are discarded and the empty result returned. -/
def WalkMetadata (fuel : Nat) (seeds : List Target) (dk wk : List String) :
    List MetaValue × List Label × Option String :=
  match walkAux dk wk fuel seeds ⟨[], []⟩ with
  | .ok st => (st.result, st.visited.map Target.label, none)
  | .error e => ([], [], some (walkErrMsg e))

/-! ### The unit-test scenarios -/

/-- `//foo:two` of the CollectWithBarrier test, with `a = ["bar"]`. -/
def mwTwo : Target :=
  .mk ⟨"//foo/", "two"⟩ .sourceSet false "" none false []
    [("a", [.strV "bar"])] [] [] [] []

/-- `//foo:three` of the CollectWithBarrier test, with `a = ["baz"]`. -/
def mwThree : Target :=
  .mk ⟨"//foo/", "three"⟩ .sourceSet false "" none false []
    [("a", [.strV "baz"])] [] [] [] []

/-- `//foo:one` of the CollectWithBarrier test: `a = ["foo"]`,
`walk = ["//foo:two"]`, public deps `two` and `three`. -/
def mwOne : Target :=
  .mk ⟨"//foo/", "one"⟩ .sourceSet false "" none false []
    [("a", [.strV "foo"]), ("walk", [.strV "//foo:two"])] [] [mwTwo, mwThree] [] []

/-- `//foo:one` of the CollectWithError test: `a = ["foo"]`,
`walk = ["//foo:missing"]`, and no deps at all. -/
def mwErrOne : Target :=
  .mk ⟨"//foo/", "one"⟩ .sourceSet false "" none false []
    [("a", [.strV "foo"]), ("walk", [.strV "//foo:missing"])] [] [] [] []

/-- A target with `walk = [""]` (an empty-string walk VALUE) and a public dep,
used as the counterexample input for C4: spec section 4.2 gives the empty
string the meaning "continue walking through all deps", so the dep is visited
even though no walk-key value names it. -/
def cxOne : Target :=
  .mk ⟨"//foo/", "one"⟩ .sourceSet false "" none false []
    [("a", [.strV "foo"]), ("walk", [.strV ""])] [] [mwTwo] [] []

/-- Counterexample for C4: with `walk_keys = ["walk"]` (non-empty and not
containing the empty string), the walk from `one` (whose `walk` value is
`[""]`) visits its dependency `two` and collects its value `bar`, although
`//foo:two` appears in no walk-key value of any visited target; so the visited
targets beyond the seeds are not exactly those named in the walk-key values. -/
theorem c4_counterexample :
    WalkMetadata 100 [cxOne] ["a"] ["walk"]
      = ([.strV "foo", .strV "bar"], [⟨"//foo/", "one"⟩, ⟨"//foo/", "two"⟩], none)
    ∧ ("walk" ∈ (["walk"] : List String) ∧ ("" : String) ∉ (["walk"] : List String))
    ∧ renderLabel ⟨"//foo/", "two"⟩ ∉ strValsOf ["walk"] cxOne ++ strValsOf ["walk"] mwTwo := by
  refine ⟨rfl, by decide, by decide⟩

/-! ### Invariants of the metadata walk -/

/-- Visited targets are never dropped: anything visited before a successful
sub-walk is still visited after it. -/
theorem walkAux_visited_mono (dk wk : List String) :
    ∀ fuel ws st st', walkAux dk wk fuel ws st = .ok st' →
    ∀ v ∈ st.visited, v ∈ st'.visited := by
  intro fuel
  induction fuel with
  | zero =>
    intro ws st st' h
    exact Except.noConfusion h
  | succ fuel ih =>
    intro ws st st' h
    cases ws with
    | nil =>
      simp only [walkAux, Except.ok.injEq] at h
      subst h
      exact fun v hv => hv
    | cons t rest =>
      simp only [walkAux] at h
      split at h
      next hvis =>
        exact ih _ _ _ h
      next hvis =>
        split at h
        next e heq => exact Except.noConfusion h
        next nexts heq =>
          split at h
          next e heq₂ => exact Except.noConfusion h
          next st₂ heq₂ =>
            intro v hv
            exact ih _ _ _ h v (ih _ _ _ heq₂ v (List.mem_append_left _ hv))

/-- The visited list never repeats a label. -/
theorem walkAux_visited_nodup (dk wk : List String) :
    ∀ fuel ws st st', walkAux dk wk fuel ws st = .ok st' →
    (st.visited.map Target.label).Nodup → (st'.visited.map Target.label).Nodup := by
  intro fuel
  induction fuel with
  | zero =>
    intro ws st st' h
    exact Except.noConfusion h
  | succ fuel ih =>
    intro ws st st' h
    cases ws with
    | nil =>
      simp only [walkAux, Except.ok.injEq] at h
      subst h
      exact fun hnd => hnd
    | cons t rest =>
      simp only [walkAux] at h
      split at h
      next hvis =>
        exact ih _ _ _ h
      next hvis =>
        split at h
        next e heq => exact Except.noConfusion h
        next nexts heq =>
          split at h
          next e heq₂ => exact Except.noConfusion h
          next st₂ heq₂ =>
            intro hnd
            have hfresh : t.label ∉ st.visited.map Target.label := by
              simp only [List.any_eq_true, beq_iff_eq] at hvis
              simp only [List.mem_map]
              rintro ⟨v, hv, hveq⟩
              exact hvis ⟨v, hv, hveq⟩
            have hnd₁ : ((st.visited ++ [t]).map Target.label).Nodup := by
              rw [List.map_append]
              refine List.Nodup.append hnd (List.nodup_singleton _) ?_
              intro x hx hx'
              rw [List.map_singleton, List.mem_singleton] at hx'
              exact hfresh (hx' ▸ hx)
            exact ih _ _ _ h (ih _ _ _ heq₂ hnd₁)

/-- Every target on the worklist of a successful walk ends up visited (possibly
as another node carrying the same label). -/
theorem walkAux_worklist_visited (dk wk : List String) :
    ∀ fuel ws st st', walkAux dk wk fuel ws st = .ok st' →
    ∀ t ∈ ws, ∃ w ∈ st'.visited, w.label = t.label := by
  intro fuel
  induction fuel with
  | zero =>
    intro ws st st' h
    exact Except.noConfusion h
  | succ fuel ih =>
    intro ws st st' h
    cases ws with
    | nil =>
      intro t ht
      exact absurd ht (List.not_mem_nil t)
    | cons t rest =>
      simp only [walkAux] at h
      split at h
      next hvis =>
        intro u hu
        rcases List.mem_cons.mp hu with rfl | hmem
        · simp only [List.any_eq_true, beq_iff_eq] at hvis
          obtain ⟨v, hv, hveq⟩ := hvis
          exact ⟨v, walkAux_visited_mono dk wk _ _ _ _ h v hv, hveq⟩
        · exact ih _ _ _ h u hmem
      next hvis =>
        split at h
        next e heq => exact Except.noConfusion h
        next nexts heq =>
          split at h
          next e heq₂ => exact Except.noConfusion h
          next st₂ heq₂ =>
            intro u hu
            rcases List.mem_cons.mp hu with rfl | hmem
            · have ht₁ : u ∈ st.visited ++ [u] := List.mem_append_right _ (List.mem_singleton.mpr rfl)
              have ht₂ : u ∈ st₂.visited :=
                walkAux_visited_mono dk wk _ _ _ _ heq₂ u ht₁
              exact ⟨u, walkAux_visited_mono dk wk _ _ _ _ h u ht₂, rfl⟩
            · exact ih _ _ _ h u hmem

/-- A resolved dependency label renders back to the string that was looked
up. -/
theorem findDepAux_renders :
    ∀ fuel ws s n, findDepAux fuel ws s = some n → renderLabel n.label = s := by
  intro fuel
  induction fuel with
  | zero =>
    intro ws s n h
    exact Option.noConfusion h
  | succ fuel ih =>
    intro ws s n h
    cases ws with
    | nil => exact Option.noConfusion h
    | cons d rest =>
      simp only [findDepAux] at h
      split at h
      next hrl =>
        cases h
        exact hrl
      next hrl =>
        split at h
        next r heq =>
          cases h
          exact ih _ _ _ heq
        next heq => exact ih rest s n h

/-- Every target produced by `resolveEntries` is accounted for: it was either
named by a non-empty string value (and renders back to it), or contributed by
an empty-string value as one of the deps of the resolving target. -/
theorem resolveEntries_mem (fuel : Nat) (t : Target) :
    ∀ vals ns, resolveEntries fuel t vals = .ok ns → ∀ n ∈ ns,
    (∃ s, MetaValue.strV s ∈ vals ∧ s ≠ "" ∧ renderLabel n.label = s)
      ∨ (MetaValue.strV "" ∈ vals ∧ n ∈ t.allDeps) := by
  intro vals
  induction vals with
  | nil =>
    intro ns h n hn
    simp only [resolveEntries, Except.ok.injEq] at h
    subst h
    exact absurd hn (List.not_mem_nil n)
  | cons v rest ih =>
    intro ns h n hn
    cases v with
    | boolV b =>
      simp only [resolveEntries] at h
      exact Except.noConfusion h
    | strV s₀ =>
      simp only [resolveEntries] at h
      split at h
      next hs₀ =>
        split at h
        next e heq => exact Except.noConfusion h
        next ns' heq =>
          cases h
          rcases List.mem_append.mp hn with hmem | hmem
          · exact Or.inr ⟨hs₀ ▸ List.mem_cons_self _ _, hmem⟩
          · rcases ih ns' heq n hmem with ⟨s', hs₁, hs₂, hs₃⟩ | ⟨h₁, h₂⟩
            · exact Or.inl ⟨s', List.mem_cons_of_mem _ hs₁, hs₂, hs₃⟩
            · exact Or.inr ⟨List.mem_cons_of_mem _ h₁, h₂⟩
      next hs₀ =>
        split at h
        next heq => exact Except.noConfusion h
        next n₀ heq =>
          split at h
          next e heq₂ => exact Except.noConfusion h
          next ns' heq₂ =>
            cases h
            rcases List.mem_cons.mp hn with rfl | hmem
            · exact Or.inl ⟨s₀, List.mem_cons_self _ _, hs₀,
                findDepAux_renders _ _ _ _ heq⟩
            · rcases ih ns' heq₂ n hmem with ⟨s', hs₁, hs₂, hs₃⟩ | ⟨h₁, h₂⟩
              · exact Or.inl ⟨s', List.mem_cons_of_mem _ hs₁, hs₂, hs₃⟩
              · exact Or.inr ⟨List.mem_cons_of_mem _ h₁, h₂⟩

/-- Every non-empty string value fed to a successful `resolveEntries` run is
realized by some produced target. -/
theorem resolveEntries_complete (fuel : Nat) (t : Target) :
    ∀ vals ns, resolveEntries fuel t vals = .ok ns →
    ∀ s, MetaValue.strV s ∈ vals → s ≠ "" → ∃ n ∈ ns, renderLabel n.label = s := by
  intro vals
  induction vals with
  | nil =>
    intro ns h s hs hne
    exact absurd hs (List.not_mem_nil _)
  | cons v rest ih =>
    intro ns h s hs hne
    cases v with
    | boolV b =>
      simp only [resolveEntries] at h
      exact Except.noConfusion h
    | strV s₀ =>
      simp only [resolveEntries] at h
      split at h
      next hs₀ =>
        split at h
        next e heq => exact Except.noConfusion h
        next ns' heq =>
          cases h
          rcases List.mem_cons.mp hs with heqv | hmem
          · injection heqv with heqs
            exact absurd (heqs.trans hs₀) hne
          · obtain ⟨n, hn, hr⟩ := ih ns' heq s hmem hne
            exact ⟨n, List.mem_append_right _ hn, hr⟩
      next hs₀ =>
        split at h
        next heq => exact Except.noConfusion h
        next n₀ heq =>
          split at h
          next e heq₂ => exact Except.noConfusion h
          next ns' heq₂ =>
            cases h
            rcases List.mem_cons.mp hs with heqv | hmem
            · injection heqv with heqs
              exact ⟨n₀, List.mem_cons_self _ _,
                heqs ▸ findDepAux_renders _ _ _ _ heq⟩
            · obtain ⟨n, hn, hr⟩ := ih ns' heq₂ s hmem hne
              exact ⟨n, List.mem_cons_of_mem _ hn, hr⟩

/-- Two visited targets with the same label are the same node. -/
theorem visited_eq_of_label_eq {l : List Target}
    (hnd : (l.map Target.label).Nodup) {a b : Target}
    (ha : a ∈ l) (hb : b ∈ l) (hab : a.label = b.label) : a = b :=
  List.inj_on_of_nodup_map hnd ha hb hab

/-- Soundness of the walk: every visited target was already visited, is on the
worklist, is named (by rendered label) in a string walk-key value of some
visited target, or was pulled in through an empty-string walk-key value of some
visited target as one of its deps. -/
theorem walkAux_sound (dk wk : List String) :
    ∀ fuel ws st st', walkAux dk wk fuel ws st = .ok st' →
    ∀ v ∈ st'.visited,
      v ∈ st.visited
      ∨ (∃ u ∈ ws, u.label = v.label)
      ∨ (∃ u ∈ st'.visited, renderLabel v.label ∈ strValsOf wk u)
      ∨ (∃ u ∈ st'.visited, MetaValue.strV "" ∈ walkVals wk u
          ∧ v.label ∈ u.allDeps.map Target.label) := by
  intro fuel
  induction fuel with
  | zero =>
    intro ws st st' h
    exact Except.noConfusion h
  | succ fuel ih =>
    intro ws st st' h
    cases ws with
    | nil =>
      simp only [walkAux, Except.ok.injEq] at h
      subst h
      exact fun v hv => Or.inl hv
    | cons t rest =>
      simp only [walkAux] at h
      split at h
      next hvis =>
        intro v hv
        rcases ih _ _ _ h v hv with h₁ | ⟨u, hu, hul⟩ | h₃ | h₄
        · exact Or.inl h₁
        · exact Or.inr (Or.inl ⟨u, List.mem_cons_of_mem _ hu, hul⟩)
        · exact Or.inr (Or.inr (Or.inl h₃))
        · exact Or.inr (Or.inr (Or.inr h₄))
      next hvis =>
        split at h
        next e heq => exact Except.noConfusion h
        next nexts heq =>
          split at h
          next e heq₂ => exact Except.noConfusion h
          next st₂ heq₂ =>
            intro v hv
            have htmem : t ∈ st'.visited := by
              have h₁ : t ∈ st.visited ++ [t] :=
                List.mem_append_right _ (List.mem_singleton.mpr rfl)
              exact walkAux_visited_mono dk wk _ _ _ _ h t
                (walkAux_visited_mono dk wk _ _ _ _ heq₂ t h₁)
            rcases ih _ _ _ h v hv with h₁ | ⟨u, hu, hul⟩ | h₃ | h₄
            · -- v was visited before walking the rest: trace it through
              -- the walk of the resolved targets.
              rcases ih _ _ _ heq₂ v h₁ with g₁ | ⟨u, hu, hul⟩ | g₃ | g₄
              · rcases List.mem_append.mp g₁ with gm | gm
                · exact Or.inl gm
                · refine Or.inr (Or.inl ⟨t, List.mem_cons_self _ _, ?_⟩)
                  rw [List.mem_singleton.mp gm]
              · -- v carries the label of one of the resolved targets.
                rcases resolveEntries_mem fuel t _ _ heq u hu with
                  ⟨s, hs₁, hs₂, hs₃⟩ | ⟨g₁, g₂⟩
                · refine Or.inr (Or.inr (Or.inl ⟨t, htmem, ?_⟩))
                  rw [hul] at hs₃
                  rw [hs₃]
                  exact List.mem_filterMap.mpr ⟨MetaValue.strV s, hs₁, rfl⟩
                · refine Or.inr (Or.inr (Or.inr ⟨t, htmem, g₁, ?_⟩))
                  exact List.mem_map.mpr ⟨u, g₂, hul⟩
              · obtain ⟨u, hu, hmem⟩ := g₃
                exact Or.inr (Or.inr (Or.inl
                  ⟨u, walkAux_visited_mono dk wk _ _ _ _ h u hu, hmem⟩))
              · obtain ⟨u, hu, hmem, hlab⟩ := g₄
                exact Or.inr (Or.inr (Or.inr
                  ⟨u, walkAux_visited_mono dk wk _ _ _ _ h u hu, hmem, hlab⟩))
            · exact Or.inr (Or.inl ⟨u, List.mem_cons_of_mem _ hu, hul⟩)
            · exact Or.inr (Or.inr (Or.inl h₃))
            · exact Or.inr (Or.inr (Or.inr h₄))

/-- Completeness of the walk: every non-empty string walk-key value of a
visited target is realized by a visited target whose label renders to it (so a
successful walk has no unresolvable walk-key value, and every named dependency
is in fact visited). -/
theorem walkAux_complete (dk wk : List String) :
    ∀ fuel ws st st', walkAux dk wk fuel ws st = .ok st' →
    (st.visited.map Target.label).Nodup →
    ∀ u ∈ st'.visited, (∀ w ∈ st.visited, w.label ≠ u.label) →
    ∀ s, MetaValue.strV s ∈ walkVals wk u → s ≠ "" →
    ∃ w ∈ st'.visited, renderLabel w.label = s := by
  intro fuel
  induction fuel with
  | zero =>
    intro ws st st' h
    exact Except.noConfusion h
  | succ fuel ih =>
    intro ws st st' h
    cases ws with
    | nil =>
      simp only [walkAux, Except.ok.injEq] at h
      subst h
      intro _ u hu hfresh s hs _
      exact absurd hs (by simpa using (hfresh u hu rfl).elim)
    | cons t rest =>
      simp only [walkAux] at h
      split at h
      next hvis =>
        intro hnd u hu hfresh s hs hne
        exact ih _ _ _ h hnd u hu hfresh s hs hne
      next hvis =>
        split at h
        next e heq => exact Except.noConfusion h
        next nexts heq =>
          split at h
          next e heq₂ => exact Except.noConfusion h
          next st₂ heq₂ =>
            intro hnd u hu hfresh s hs hne
            have hfresht : t.label ∉ st.visited.map Target.label := by
              simp only [List.any_eq_true, beq_iff_eq] at hvis
              simp only [List.mem_map]
              rintro ⟨v, hv, hveq⟩
              exact hvis ⟨v, hv, hveq⟩
            have hnd₁ : ((st.visited ++ [t]).map Target.label).Nodup := by
              rw [List.map_append]
              refine List.Nodup.append hnd (List.nodup_singleton _) ?_
              intro x hx hx'
              rw [List.map_singleton, List.mem_singleton] at hx'
              exact hfresht (hx' ▸ hx)
            have hnd₂ : (st₂.visited.map Target.label).Nodup :=
              walkAux_visited_nodup dk wk _ _ _ _ heq₂ hnd₁
            have hndF : (st'.visited.map Target.label).Nodup :=
              walkAux_visited_nodup dk wk _ _ _ _ h hnd₂
            by_cases hc : ∃ w ∈ st₂.visited, w.label = u.label
            · obtain ⟨w, hw, hwl⟩ := hc
              have hwst' : w ∈ st'.visited :=
                walkAux_visited_mono dk wk _ _ _ _ h w hw
              have huw : w = u := visited_eq_of_label_eq hndF hwst' hu hwl
              subst huw
              by_cases hc₁ : ∃ x ∈ st.visited ++ [t], x.label = w.label
              · obtain ⟨x, hx, hxl⟩ := hc₁
                rcases List.mem_append.mp hx with hx₀ | hx₁
                · exact absurd hxl (hfresh x hx₀)
                · have hxt : x = t := List.mem_singleton.mp hx₁
                  have htst' : t ∈ st'.visited := by
                    have h₁ : t ∈ st.visited ++ [t] :=
                      List.mem_append_right _ (List.mem_singleton.mpr rfl)
                    exact walkAux_visited_mono dk wk _ _ _ _ h t
                      (walkAux_visited_mono dk wk _ _ _ _ heq₂ t h₁)
                  have hwt : w = t := by
                    rw [hxt] at hxl
                    exact visited_eq_of_label_eq hndF hwst' htst' hxl.symm
                  subst hwt
                  obtain ⟨n, hn, hr⟩ :=
                    resolveEntries_complete fuel w _ _ heq s hs hne
                  obtain ⟨w', hw', hwl'⟩ :=
                    walkAux_worklist_visited dk wk _ _ _ _ heq₂ n hn
                  exact ⟨w', walkAux_visited_mono dk wk _ _ _ _ h w' hw',
                    by rw [hwl']; exact hr⟩
              · push_neg at hc₁
                obtain ⟨w', hw', hr⟩ :=
                  ih _ _ _ heq₂ hnd₁ w hw (fun x hx => hc₁ x hx) s hs hne
                exact ⟨w', walkAux_visited_mono dk wk _ _ _ _ h w' hw', hr⟩
            · push_neg at hc
              exact ih _ _ _ h hnd₂ u hu (fun x hx => hc x hx) s hs hne

/-- C4 (amended): for every metadata walk whose walk-key list is non-empty and
does not contain the empty string, and in which no walk-key VALUE of a visited
target is the empty string, the targets visited beyond the seeds are exactly
those named in the walk-key values of visited targets: every visited target
either carries a seed label or is named (by rendered label) in a walk-key value
of a visited target, and conversely every non-empty walk-key value of a visited
target names a visited target.  In particular, for the CollectWithBarrier graph
(seed `one` with `a = ["foo"]` and `walk = ["//foo:two"]`, public deps `two`
with `a = ["bar"]` and `three` with `a = ["baz"]`), the walk with
`data_keys = ["a"]` and `walk_keys = ["walk"]` yields the result
`["foo", "bar"]` and the visited list `[one, two]`; `three` is not visited and
contributes no value. -/
theorem c4_walk_barrier :
    (∀ dk wk fuel seeds st',
      walkAux dk wk fuel seeds ⟨[], []⟩ = .ok st' →
      (∀ u ∈ st'.visited, MetaValue.strV "" ∉ walkVals wk u) →
      ∀ v ∈ st'.visited,
        (∃ u ∈ seeds, u.label = v.label)
        ∨ ∃ u ∈ st'.visited, renderLabel v.label ∈ strValsOf wk u)
    ∧ (∀ dk wk fuel seeds st',
      walkAux dk wk fuel seeds ⟨[], []⟩ = .ok st' →
      ∀ u ∈ st'.visited, ∀ s, MetaValue.strV s ∈ walkVals wk u → s ≠ "" →
      ∃ w ∈ st'.visited, renderLabel w.label = s)
    ∧ WalkMetadata 100 [mwOne] ["a"] ["walk"]
      = ([.strV "foo", .strV "bar"], [⟨"//foo/", "one"⟩, ⟨"//foo/", "two"⟩], none)
    ∧ (⟨"//foo/", "three"⟩ : Label)
        ∉ [(⟨"//foo/", "one"⟩ : Label), ⟨"//foo/", "two"⟩] := by
  refine ⟨?_, ?_, rfl, by decide⟩
  · intro dk wk fuel seeds st' h hne v hv
    rcases walkAux_sound dk wk fuel seeds _ _ h v hv with h₁ | h₂ | h₃ | h₄
    · exact absurd h₁ (List.not_mem_nil v)
    · exact Or.inl h₂
    · exact Or.inr h₃
    · obtain ⟨u, hu, hmem, _⟩ := h₄
      exact absurd hmem (hne u hu)
  · intro dk wk fuel seeds st' h u hu s hs hne
    exact walkAux_complete dk wk fuel seeds _ _ h (by simp) u hu
      (fun w hw => (List.not_mem_nil w hw).elim) s hs hne

/-- Witness for C4: in the CollectWithBarrier run the completeness half,
applied to the visited seed `one` and its walk value `//foo:two`, produces a
visited target rendering to `//foo:two`. -/
theorem c4_walk_barrier_witness :
    ∃ w ∈ [mwOne, mwTwo], renderLabel w.label = "//foo:two" := by
  have hrun : walkAux ["a"] ["walk"] 100 [mwOne] ⟨[], []⟩
      = .ok ⟨[mwOne, mwTwo], [.strV "foo", .strV "bar"]⟩ := rfl
  exact c4_walk_barrier.2.1 ["a"] ["walk"] 100 [mwOne] _ hrun mwOne
    (List.mem_cons_self _ _) "//foo:two" (by decide) (by decide)

/-- C5: a walk-key value that does not resolve to a dependency kills the walk.
In a successful walk every non-empty string walk-key value of a visited target
resolves to a visited dependency (so a walk in which some visited target has an
unresolvable value cannot succeed); a failed walk returns the empty result with
the error message populated; and on the CollectWithError graph (seed `one` with
`walk = ["//foo:missing"]` and no deps) the result is empty and the message is
exactly the literal asserted by the unit test. -/
theorem c5_walk_unresolved_label :
    (∀ dk wk fuel seeds st',
      walkAux dk wk fuel seeds ⟨[], []⟩ = .ok st' →
      ∀ u ∈ st'.visited, ∀ s, MetaValue.strV s ∈ walkVals wk u → s ≠ "" →
      ∃ w ∈ st'.visited, renderLabel w.label = s)
    ∧ (∀ fuel seeds dk wk e, walkAux dk wk fuel seeds ⟨[], []⟩ = .error e →
      WalkMetadata fuel seeds dk wk = ([], [], some (walkErrMsg e)))
    ∧ WalkMetadata 100 [mwErrOne] ["a"] ["walk"]
      = ([], [],
        some "I was expecting //foo:missing to be a dependency of //foo:one. Make sure it\x27s included in the deps or data_deps.") := by
  refine ⟨?_, ?_, rfl⟩
  · intro dk wk fuel seeds st' h u hu s hs hne
    exact walkAux_complete dk wk fuel seeds _ _ h (by simp) u hu
      (fun w hw => (List.not_mem_nil w hw).elim) s hs hne
  · intro fuel seeds dk wk e h
    unfold WalkMetadata
    rw [h]

/-- Witness for C5: the failing CollectWithError run, fed through the failure
half of the theorem, yields the empty result and the rendered message. -/
theorem c5_walk_unresolved_label_witness :
    WalkMetadata 100 [mwErrOne] ["a"] ["walk"]
      = ([], [], some (walkErrMsg (.notADep "//foo:missing" ⟨"//foo/", "one"⟩))) := by
  have hrun : walkAux ["a"] ["walk"] 100 [mwErrOne] ⟨[], []⟩
      = .error (.notADep "//foo:missing" ⟨"//foo/", "one"⟩) := rfl
  exact c5_walk_unresolved_label.2.1 100 [mwErrOne] ["a"] ["walk"] _ hrun
